import Mathlib

/-
Shallow embedding of the snailtrail capture-and-replay layer
(src/timely-adapter/src/connect.rs): the frontier-tracking event logger
installed by log_pag, and the replayer factory make_replayers.
Machine integers (usize, u64) are modelled as Nat; Duration is modelled
as a Nat count of nanoseconds; the event writer is modelled by the list
of records pushed to it; rust panics (assert failures, unwrap on None,
file-open failures) are modelled explicitly.
-/

namespace Snailtrail

/-- Pair of logical epoch and physical time, from logformat::pair::Pair.
Field names follow the source: first is the epoch (u64), second the
physical time (Duration, as Nat nanoseconds). -/
structure Pair where
  first : Nat
  second : Nat
deriving DecidableEq, Repr

/-- The TimelyEvent variants log_pag distinguishes. Payloads the hook
never inspects are modelled as a plain Nat. Other stands for every
remaining variant the hook ignores. -/
inductive TimelyEvent where
  | Operates (payload : Nat)
  | Channels (payload : Nat)
  | Schedule (payload : Nat)
  | Messages (payload : Nat)
  | Progress (payload : Nat)
  | Text (s : String)
  | Other
deriving DecidableEq, Repr

/-- A logged tuple (Duration, WorkerIdentifier, TimelyEvent):
physical time, worker id, event. -/
abbrev LogTuple := Nat × Nat × TimelyEvent

/-- Records pushed to the EventWriter: capture::Event over
timestamp Pair and data LogTuple. -/
inductive Event where
  | Progress (l : List (Pair × Int))
  | Messages (f : Pair) (evs : List LogTuple)
deriving DecidableEq, Repr

/-- The mutable state captured by the log_pag closure. -/
structure LogPagState where
  new_frontier : Pair
  allow_frontier_update : Bool
  curr_frontier : Pair
  buffer : List LogTuple
  wrap_up : Bool × Bool
  fuel : Nat
deriving DecidableEq, Repr

/-- MAX_FUEL constant from the source. -/
def MAX_FUEL : Nat := 512

/-- Initial closure state at logger installation time. -/
def initState (maxFuel : Nat) : LogPagState :=
  { new_frontier := { first := 0, second := 0 }
    allow_frontier_update := true
    curr_frontier := { first := 0, second := 0 }
    buffer := []
    wrap_up := (false, false)
    fuel := maxFuel }

/-- Embedding of rust str::starts_with on the marker strings. -/
def starts_with (s pre : String) : Bool :=
  pre.data.isPrefixOf s.data

/-- The end-of-computation marker prefix tested by the hook. -/
def st_done_marker : String := "[st] computation done"

/-- True for Text events carrying the end-of-computation marker. -/
def isDoneText : TimelyEvent → Bool
  | .Text e => starts_with e st_done_marker
  | _ => false

/-- True for the dataflow-setup events Operates and Channels. -/
def isSetup : TimelyEvent → Bool
  | .Operates _ => true
  | .Channels _ => true
  | _ => false

/-- Fuel decrement guarded by the wrap-up phase 2 flag:
if !wrap_up.1 { fuel -= 1 } in the source. -/
def spendFuel (s : LogPagState) : LogPagState :=
  if s.wrap_up.2 = false then { s with fuel := s.fuel - 1 } else s

/-- Physical-time capture guarded by allow_frontier_update. -/
def captureTime (s : LogPagState) (time : Nat) : LogPagState :=
  if s.allow_frontier_update then
    { s with new_frontier := { s.new_frontier with second := time }
             allow_frontier_update := false }
  else s

/-- The per-event match block of the hook body. none models a panic of
the assertions in the Operates/Channels arm. -/
def matchStep (s : LogPagState) (t : LogTuple) : Option LogPagState :=
  match t.2.2 with
  | .Progress _ | .Messages _ | .Schedule _ =>
    let s1 := captureTime (spendFuel s) t.1
    some { s1 with buffer := s1.buffer ++ [t] }
  | .Operates _ | .Channels _ =>
    let s1 := spendFuel s
    if s1.new_frontier = { first := 0, second := 0 } ∧
        s1.new_frontier = s1.curr_frontier then
      some { s1 with buffer := s1.buffer ++ [(s1.curr_frontier.second, t.2.1, t.2.2)] }
    else
      none
  | .Text e =>
    if starts_with e st_done_marker then
      some { s with wrap_up := (true, false) }
    else
      some { s with new_frontier := { s.new_frontier with first := s.new_frontier.first + 1 } }
  | .Other => some s

/-- The frontier-advance check run after every event: when not in
wrap-up phase 2 and the epoch advanced or fuel ran out, emit a Progress
record, commit the new frontier, and flush the buffer as a Messages
record when non-empty. -/
def flushStep (maxFuel : Nat) (s : LogPagState) : LogPagState × List Event :=
  if s.wrap_up.2 = false then
    if s.curr_frontier.first < s.new_frontier.first ∨ s.fuel = 0 then
      let prog := Event.Progress [(s.new_frontier, 1), (s.curr_frontier, -1)]
      let s1 := { s with fuel := maxFuel
                         curr_frontier := s.new_frontier
                         allow_frontier_update := true }
      if 0 < s1.buffer.length then
        ({ s1 with buffer := [] }, [prog, Event.Messages s1.curr_frontier s1.buffer])
      else
        (s1, [prog])
    else (s, [])
  else (s, [])

/-- Processing of one tuple of the delivered batch: the match block
followed by the frontier-advance check. none models a panic. -/
def processTuple (maxFuel : Nat) (s : LogPagState) (t : LogTuple) :
    Option (LogPagState × List Event) :=
  match matchStep s t with
  | none => none
  | some s1 => some (flushStep maxFuel s1)

/-- The wrap-up block run once per hook invocation, after the batch
loop: when the end marker was seen and capabilities not yet dropped,
write out remaining messages (the buffer is cloned, not cleared), free
the capability on the committed frontier, and move to phase 2. -/
def wrapUpStep (s : LogPagState) : LogPagState × List Event :=
  if s.wrap_up.1 = true ∧ s.wrap_up.2 = false then
    let msgs := if 0 < s.buffer.length then
        [Event.Messages s.curr_frontier s.buffer]
      else []
    ({ s with wrap_up := (false, true) },
      msgs ++ [Event.Progress [(s.curr_frontier, -1)]])
  else (s, [])

/-- A run of the hook: closure state, records pushed to the writer so
far, and whether a panic happened (after which nothing further runs). -/
structure Run where
  st : LogPagState
  out : List Event
  panicked : Bool
deriving DecidableEq, Repr

/-- One tuple step lifted to runs: frozen after a panic. -/
def stepRun (maxFuel : Nat) (r : Run) (t : LogTuple) : Run :=
  if r.panicked then r
  else
    match processTuple maxFuel r.st t with
    | none => { r with panicked := true }
    | some (s, out) => { st := s, out := r.out ++ out, panicked := false }

/-- One hook invocation on a delivered batch: the event loop followed
by the wrap-up block. -/
def runBatch (maxFuel : Nat) (r : Run) (batch : List LogTuple) : Run :=
  let r1 := batch.foldl (stepRun maxFuel) r
  if r1.panicked then r1
  else
    let p := wrapUpStep r1.st
    { st := p.1, out := r1.out ++ p.2, panicked := false }

/-- The run state before any invocation. -/
def initRun (maxFuel : Nat) : Run :=
  { st := initState maxFuel, out := [], panicked := false }

/-- A sequence of hook invocations from a given run state. -/
def runBatchesFrom (maxFuel : Nat) (r : Run) (batches : List (List LogTuple)) : Run :=
  batches.foldl (runBatch maxFuel) r

/-- A full session: the hook invoked on a sequence of batches from the
installation-time state. -/
def runBatches (maxFuel : Nat) (batches : List (List LogTuple)) : Run :=
  runBatchesFrom maxFuel (initRun maxFuel) batches

/-- Lexicographic non-strict order on frontiers. -/
def lexLe (p q : Pair) : Prop :=
  p.first < q.first ∨ (p.first = q.first ∧ p.second ≤ q.second)

/-- Lexicographic strict order on frontiers. -/
def lexLt (p q : Pair) : Prop :=
  p.first < q.first ∨ (p.first = q.first ∧ p.second < q.second)

instance (p q : Pair) : Decidable (lexLe p q) := by
  unfold lexLe; infer_instance

instance (p q : Pair) : Decidable (lexLt p q) := by
  unfold lexLt; infer_instance

/-- The frontier acquired by a Progress record, when any: the entry
with delta plus one. -/
def acquired : Event → Option Pair
  | .Progress l => (l.find? (fun pd => pd.2 == 1)).map (fun pd => pd.1)
  | _ => none

/-- The committed frontiers of an output: the acquired frontier of each
Progress record, in emission order. These are exactly the successive
values assigned to curr_frontier by flushes. -/
def commits (out : List Event) : List Pair :=
  out.filterMap acquired

/-- Claim C5 as stated: over a whole delivered session, committed
frontiers are lexicographically non-decreasing, and strictly increasing
from one flush to the next. -/
def committedMonotone (maxFuel : Nat) (batches : List (List LogTuple)) : Prop :=
  List.Chain' lexLe (commits (runBatches maxFuel batches).out) ∧
  List.Chain' lexLt (commits (runBatches maxFuel batches).out)

/- Replayer factory, from make_replayers in connect.rs. Sockets and
files are modelled by plain Nat handles; the filesystem by a partial
map from file names to handles. -/

/-- Types of replayer created by make_replayers, from the source enum
ReplayerType. -/
inductive ReplayerType where
  | Tcp (s : Nat)
  | File (f : Nat)
deriving DecidableEq, Repr

/-- The ways make_replayers aborts the process: the assertion on peer
counts, take().unwrap() on an already consumed socket slot, and a
failed File::open. -/
inductive ReplayerFailure where
  | assertFailed
  | socketTaken (i : Nat)
  | fileOpen (name : String)
deriving DecidableEq, Repr

/-- Dump file name derived from a source index, format!("{:?}.dump", i)
in the source. -/
def dump_name (i : Nat) : String :=
  toString i ++ ".dump"

/-- The source indices a worker owns: indices i with
i mod worker_peers equal to worker_index, in increasing order. -/
def assignedSources (worker_index worker_peers source_peers : Nat) : List Nat :=
  (List.range source_peers).filter (fun i => i % worker_peers == worker_index)

/-- Online path: move each filtered socket slot out of the shared
vector; a slot already holding none panics via unwrap. -/
def takeSockets : List (Nat × Option Nat) → Except ReplayerFailure (List ReplayerType)
  | [] => .ok []
  | (i, none) :: _ => .error (.socketTaken i)
  | (_, some s) :: rest => (takeSockets rest).map (fun l => ReplayerType.Tcp s :: l)

/-- Offline path: open the dump file of each assigned index; a failed
open panics with the underlying error. -/
def openFiles (fs : String → Option Nat) : List Nat → Except ReplayerFailure (List ReplayerType)
  | [] => .ok []
  | i :: rest =>
    match fs (dump_name i) with
    | none => .error (.fileOpen (dump_name i))
    | some f => (openFiles fs rest).map (fun l => ReplayerType.File f :: l)

/-- Embedding of make_replayers: assert the peer counts match, then
build this worker's replayers from the shared sockets (online) or from
dump files (offline, with the filesystem abstracted by fs). -/
def make_replayers (worker_index worker_peers source_peers : Nat)
    (sockets : Option (List (Option Nat))) (fs : String → Option Nat) :
    Except ReplayerFailure (List ReplayerType) :=
  if source_peers = worker_peers then
    match sockets with
    | some socks =>
      takeSockets (socks.enum.filter (fun p => p.1 % worker_peers == worker_index))
    | none =>
      openFiles fs (assignedSources worker_index worker_peers source_peers)
  else .error .assertFailed

/- Helper lemmas about single steps of the hook. -/

/-- Fuel after the per-event match block: either still positive, or
zero with wrap-up phase 2 unset, so that the flush check fires. -/
lemma matchStep_fuel (s : LogPagState) (t : LogTuple) (s1 : LogPagState)
    (h : matchStep s t = some s1) (hs : 1 ≤ s.fuel) :
    1 ≤ s1.fuel ∨ (s1.fuel = 0 ∧ s1.wrap_up.2 = false) := by
  rcases t with ⟨tt, tw, ev⟩
  cases ev <;>
    simp only [matchStep, spendFuel, captureTime] at h <;>
    (try split_ifs at h) <;>
    (try cases h) <;>
    simp_all <;>
    omega

/-- Fuel after the flush check stays positive given the match-block
disjunction. -/
lemma flushStep_fuel (maxFuel : Nat) (s : LogPagState)
    (hF : 1 ≤ maxFuel)
    (h : 1 ≤ s.fuel ∨ (s.fuel = 0 ∧ s.wrap_up.2 = false)) :
    1 ≤ (flushStep maxFuel s).1.fuel := by
  unfold flushStep
  dsimp only
  split_ifs <;> simp_all

/-- Fuel stays at least one across a single processed tuple: an event
that brings fuel to zero fires the flush in the same iteration, which
resets fuel, and fuel is untouched in wrap-up phase 2. -/
lemma processTuple_fuel (maxFuel : Nat) (s : LogPagState) (t : LogTuple)
    (s' : LogPagState) (out : List Event)
    (h : processTuple maxFuel s t = some (s', out))
    (hF : 1 ≤ maxFuel) (hs : 1 ≤ s.fuel) : 1 ≤ s'.fuel := by
  unfold processTuple at h
  cases hm : matchStep s t with
  | none => rw [hm] at h; cases h
  | some s1 =>
    rw [hm] at h
    have h2 := flushStep_fuel maxFuel s1 hF (matchStep_fuel s t s1 hm hs)
    injection h with h'
    rw [h'] at h2
    exact h2

/-- Fuel stays at least one across a run step. -/
lemma stepRun_fuel (maxFuel : Nat) (r : Run) (t : LogTuple)
    (hF : 1 ≤ maxFuel) (hs : 1 ≤ r.st.fuel) : 1 ≤ (stepRun maxFuel r t).st.fuel := by
  unfold stepRun
  split
  · exact hs
  · cases hp : processTuple maxFuel r.st t with
    | none => simp [hp, hs]
    | some p => simpa [hp] using processTuple_fuel maxFuel r.st t p.1 p.2 (by simp [hp]) hF hs

/-- Fuel stays at least one across a whole event loop. -/
lemma foldl_fuel (maxFuel : Nat) (ts : List LogTuple) :
    ∀ (r : Run), 1 ≤ maxFuel → 1 ≤ r.st.fuel →
      1 ≤ (ts.foldl (stepRun maxFuel) r).st.fuel := by
  induction ts with
  | nil => intro r _ hs; exact hs
  | cons t ts ih =>
    intro r hF hs
    exact ih (stepRun maxFuel r t) hF (stepRun_fuel maxFuel r t hF hs)

/-- The wrap-up block never changes fuel. -/
lemma wrapUpStep_fuel (s : LogPagState) : (wrapUpStep s).1.fuel = s.fuel := by
  unfold wrapUpStep
  split_ifs <;> rfl

/-- Fuel stays at least one across a whole hook invocation. -/
lemma runBatch_fuel (maxFuel : Nat) (r : Run) (b : List LogTuple)
    (hF : 1 ≤ maxFuel) (hs : 1 ≤ r.st.fuel) :
    1 ≤ (runBatch maxFuel r b).st.fuel := by
  have h1 := foldl_fuel maxFuel b r hF hs
  unfold runBatch
  dsimp only
  split_ifs
  · exact h1
  · simpa [wrapUpStep_fuel] using h1

/-- Fuel stays at least one across any sequence of invocations. -/
lemma runBatchesFrom_fuel (maxFuel : Nat) (batches : List (List LogTuple)) :
    ∀ (r : Run), 1 ≤ maxFuel → 1 ≤ r.st.fuel →
      1 ≤ (runBatchesFrom maxFuel r batches).st.fuel := by
  induction batches with
  | nil => intro r _ hs; exact hs
  | cons b bs ih =>
    intro r hF hs
    exact ih (runBatch maxFuel r b) hF (runBatch_fuel maxFuel r b hF hs)

/-- Claim C10: the fuel counter never underflows. In every state the hook can
reach, at any point of any invocation, fuel is at least one, so at each
`fuel -= 1` the operand is positive and the usize subtraction is exact.
Any event that brings fuel to zero triggers the flush in the same
iteration, resetting fuel to MAX_FUEL, and fuel is not decremented in
wrap-up phase 2. -/
theorem fuel_never_underflows (batches : List (List LogTuple)) (ts : List LogTuple) :
    1 ≤ ((ts.foldl (stepRun MAX_FUEL) (runBatches MAX_FUEL batches)).st.fuel) := by
  refine foldl_fuel MAX_FUEL ts _ (by decide) ?_
  exact runBatchesFrom_fuel MAX_FUEL batches (initRun MAX_FUEL) (by decide) (by decide)

/-- Claim C1: for every event processed by the hook, when the post-match
state is not in wrap-up phase 2 and the flush condition holds (the new
epoch exceeds the current one, or fuel is zero), the step performs a
flush: fuel is reset to MAX_FUEL; exactly one Progress record is
emitted containing exactly the pairs (new_frontier, +1) and
(curr_frontier, -1); curr_frontier is set to new_frontier;
allow_frontier_update is set; and a Messages record tagged with the
updated curr_frontier carrying the buffered events is emitted if and
only if the buffer is non-empty, which is left empty afterwards. -/
theorem log_pag_flush_spec (maxFuel : Nat) (s s1 : LogPagState) (t : LogTuple)
    (hm : matchStep s t = some s1)
    (hw : s1.wrap_up.2 = false)
    (hc : s1.curr_frontier.first < s1.new_frontier.first ∨ s1.fuel = 0) :
    processTuple maxFuel s t =
      some ({ s1 with fuel := maxFuel
                      curr_frontier := s1.new_frontier
                      allow_frontier_update := true
                      buffer := [] },
        Event.Progress [(s1.new_frontier, 1), (s1.curr_frontier, -1)] ::
          if s1.buffer = [] then [] else [Event.Messages s1.new_frontier s1.buffer]) := by
  unfold processTuple
  rw [hm]
  dsimp only
  unfold flushStep
  rw [hw, if_pos rfl, if_pos hc]
  dsimp only
  by_cases hb : s1.buffer = []
  · rw [if_neg (by simp [hb]), if_pos hb, hb]
  · rw [if_pos (List.length_pos.mpr hb), if_neg hb]

/-- Witness for C1 at a concrete state and tuple. -/
theorem log_pag_flush_spec_witness :
    processTuple 512
      { new_frontier := ⟨1, 7⟩, allow_frontier_update := false,
        curr_frontier := ⟨0, 0⟩, buffer := [(7, 0, TimelyEvent.Schedule 3)],
        wrap_up := (false, false), fuel := 5 }
      (0, 0, TimelyEvent.Other) =
      some ({ new_frontier := ⟨1, 7⟩, allow_frontier_update := true,
              curr_frontier := ⟨1, 7⟩, buffer := [],
              wrap_up := (false, false), fuel := 512 },
        [Event.Progress [(⟨1, 7⟩, 1), (⟨0, 0⟩, -1)],
         Event.Messages ⟨1, 7⟩ [(7, 0, TimelyEvent.Schedule 3)]]) := by
  have h := log_pag_flush_spec 512
    { new_frontier := ⟨1, 7⟩, allow_frontier_update := false,
      curr_frontier := ⟨0, 0⟩, buffer := [(7, 0, TimelyEvent.Schedule 3)],
      wrap_up := (false, false), fuel := 5 }
    { new_frontier := ⟨1, 7⟩, allow_frontier_update := false,
      curr_frontier := ⟨0, 0⟩, buffer := [(7, 0, TimelyEvent.Schedule 3)],
      wrap_up := (false, false), fuel := 5 }
    (0, 0, TimelyEvent.Other) (by decide) (by decide) (by decide)
  simpa using h

/- The concrete scenario of C2, with MAX_FUEL four. -/

/-- First delivered batch of the scenario: the two setup events. -/
def scnB1 : List LogTuple := [(5, 0, .Operates 0), (6, 0, .Channels 0)]

/-- Second delivered batch: epoch marker, two Schedule, one Messages. -/
def scnB2 : List LogTuple :=
  [(10, 0, .Text "epoch"), (11, 0, .Schedule 0), (12, 0, .Schedule 0), (13, 0, .Messages 0)]

/-- Third delivered batch: epoch marker and one Schedule. -/
def scnB3 : List LogTuple := [(20, 0, .Text "epoch"), (21, 0, .Schedule 0)]

/-- Fourth delivered batch: the end-of-computation marker. -/
def scnB4 : List LogTuple := [(30, 0, .Text "[st] computation done")]

/-- Claim C2 counterexample: in the actual output of the scenario no Messages
record at all is tagged with Frontier (0, 0), while the claim expects
its first record to be a Messages record at Frontier (0, 0) holding the
two setup events. The setup events are instead flushed at the frontier
committed by the first epoch flush. -/
theorem scenario_claimed_output_refuted :
    (runBatches 4 [scnB1, scnB2, scnB3, scnB4]).out.filter
      (fun e => match e with
        | .Messages f _ => f == ⟨0, 0⟩
        | _ => false) = [] := by decide

/-- Claim C2 amended: the actual output of the scenario. Each flush emits a
Progress record first and then the Messages record tagged with the
frontier just committed; the two setup events ride at Frontier (1, 0),
the three epoch-one events at Frontier (2, 11); wrap-up emits the last
buffered event at Frontier (2, 11) and then the lone retraction; a
later marker-free invocation adds no output. -/
theorem scenario_actual_output :
    runBatches 4 [scnB1, scnB2, scnB3, scnB4] =
      { st := { new_frontier := ⟨2, 21⟩, allow_frontier_update := false,
                curr_frontier := ⟨2, 11⟩,
                buffer := [(21, 0, .Schedule 0)],
                wrap_up := (false, true), fuel := 3 },
        out := [.Progress [(⟨1, 0⟩, 1), (⟨0, 0⟩, -1)],
                .Messages ⟨1, 0⟩ [(0, 0, .Operates 0), (0, 0, .Channels 0)],
                .Progress [(⟨2, 11⟩, 1), (⟨1, 0⟩, -1)],
                .Messages ⟨2, 11⟩
                  [(11, 0, .Schedule 0), (12, 0, .Schedule 0), (13, 0, .Messages 0)],
                .Messages ⟨2, 11⟩ [(21, 0, .Schedule 0)],
                .Progress [(⟨2, 11⟩, -1)]],
        panicked := false } ∧
    (runBatches 4 [scnB1, scnB2, scnB3, scnB4, [(40, 0, .Schedule 0)]]).out =
      (runBatches 4 [scnB1, scnB2, scnB3, scnB4]).out := by decide

/-- Claim C3 counterexample: a setup event is emitted inside a Messages
record tagged with Frontier (1, 0), not Frontier (0, 0): the event is
stamped with physical time zero, but the record tag is the frontier
committed at the first flush after it was buffered. -/
theorem setup_frontier_tag_counterexample :
    (runBatches 512 [[(5, 0, .Operates 0)], [(10, 0, .Text "e")]]).out =
      [.Progress [(⟨1, 0⟩, 1), (⟨0, 0⟩, -1)],
       .Messages ⟨1, 0⟩ [(0, 0, .Operates 0)]] ∧
    (⟨1, 0⟩ : Pair) ≠ ⟨0, 0⟩ := by decide

/-- A batch holding only the end-of-computation marker. -/
def doneB : List LogTuple := [(0, 0, .Text "[st] computation done")]

/-- Claim C4 counterexample: after the end-of-computation marker and the
wrap-up flush, delivering one more batch that again contains the marker
re-enters wrap-up phase 1 and emits a second final Progress record, so
additional batches with Text markers do produce further records. -/
theorem wrapup_retrigger_counterexample :
    (runBatches 512 [doneB]).out = [.Progress [(⟨0, 0⟩, -1)]] ∧
    (runBatches 512 [doneB, doneB]).out =
      [.Progress [(⟨0, 0⟩, -1)], .Progress [(⟨0, 0⟩, -1)]] := by decide

/-- Claim C9 counterexample: in wrap-up phase 2 the hook is not a state
no-op: a delivered Schedule event is still appended to the buffer (and
the pending frontier bookkeeping still runs), although nothing is
written to the sink. -/
theorem phase2_state_changes_counterexample :
    (runBatches 512 [doneB]).st.wrap_up = (false, true) ∧
    (runBatches 512 [doneB, [(5, 0, .Schedule 0)]]).st.buffer ≠
      (runBatches 512 [doneB]).st.buffer ∧
    (runBatches 512 [doneB, [(5, 0, .Schedule 0)]]).out =
      (runBatches 512 [doneB]).out := by decide

/-- A single non-marker tuple processed in wrap-up phase 2 writes
nothing and leaves curr_frontier, fuel and wrap_up untouched (it can
still panic, grow the buffer, or move the pending frontier). -/
lemma stepRun_phase2 (maxFuel : Nat) (r : Run) (t : LogTuple)
    (hph : r.st.wrap_up = (false, true)) (hnm : isDoneText t.2.2 = false) :
    (stepRun maxFuel r t).out = r.out ∧
    (stepRun maxFuel r t).st.wrap_up = (false, true) ∧
    (stepRun maxFuel r t).st.curr_frontier = r.st.curr_frontier ∧
    (stepRun maxFuel r t).st.fuel = r.st.fuel := by
  unfold stepRun
  split_ifs with hp
  · exact ⟨rfl, hph, rfl, rfl⟩
  · have hw2 : r.st.wrap_up.2 = true := by rw [hph]
    rcases t with ⟨tt, tw, ev⟩
    cases ev with
    | Operates p =>
      by_cases ha : r.st.new_frontier = (⟨0, 0⟩ : Pair) ∧
          r.st.new_frontier = r.st.curr_frontier
      · have hc0 : r.st.curr_frontier = (⟨0, 0⟩ : Pair) := by rw [← ha.2, ha.1]
        simp [processTuple, matchStep, spendFuel, flushStep, hw2, hph, ha.1, hc0]
      · simp [processTuple, matchStep, spendFuel, flushStep, hw2, hph, ha]
    | Channels p =>
      by_cases ha : r.st.new_frontier = (⟨0, 0⟩ : Pair) ∧
          r.st.new_frontier = r.st.curr_frontier
      · have hc0 : r.st.curr_frontier = (⟨0, 0⟩ : Pair) := by rw [← ha.2, ha.1]
        simp [processTuple, matchStep, spendFuel, flushStep, hw2, hph, ha.1, hc0]
      · simp [processTuple, matchStep, spendFuel, flushStep, hw2, hph, ha]
    | Schedule p =>
      by_cases hal : r.st.allow_frontier_update <;>
        simp [processTuple, matchStep, spendFuel, captureTime, flushStep, hw2, hph, hal]
    | Messages p =>
      by_cases hal : r.st.allow_frontier_update <;>
        simp [processTuple, matchStep, spendFuel, captureTime, flushStep, hw2, hph, hal]
    | Progress p =>
      by_cases hal : r.st.allow_frontier_update <;>
        simp [processTuple, matchStep, spendFuel, captureTime, flushStep, hw2, hph, hal]
    | Text e =>
      simp only [isDoneText] at hnm
      simp [processTuple, matchStep, flushStep, hph, hnm, hw2]
    | Other =>
      simp [processTuple, matchStep, flushStep, hph, hw2]

/-- An event loop over non-marker tuples in wrap-up phase 2 writes
nothing and leaves curr_frontier, fuel and wrap_up untouched. -/
lemma foldl_phase2 (maxFuel : Nat) (ts : List LogTuple) :
    ∀ (r : Run), r.st.wrap_up = (false, true) →
      (∀ t ∈ ts, isDoneText t.2.2 = false) →
      (ts.foldl (stepRun maxFuel) r).out = r.out ∧
      (ts.foldl (stepRun maxFuel) r).st.wrap_up = (false, true) ∧
      (ts.foldl (stepRun maxFuel) r).st.curr_frontier = r.st.curr_frontier ∧
      (ts.foldl (stepRun maxFuel) r).st.fuel = r.st.fuel := by
  induction ts with
  | nil => intro r h _; exact ⟨rfl, h, rfl, rfl⟩
  | cons t ts ih =>
    intro r h hnm
    have h1 := stepRun_phase2 maxFuel r t h (hnm t (by simp))
    have h2 := ih (stepRun maxFuel r t) h1.2.1 (fun u hu => hnm u (by simp [hu]))
    refine ⟨h2.1.trans h1.1, h2.2.1, h2.2.2.1.trans h1.2.2.1, h2.2.2.2.trans h1.2.2.2⟩

/-- A whole hook invocation on a non-marker batch in wrap-up phase 2
writes nothing and leaves curr_frontier, fuel and wrap_up untouched. -/
lemma runBatch_phase2 (maxFuel : Nat) (r : Run) (b : List LogTuple)
    (hph : r.st.wrap_up = (false, true)) (hnm : ∀ t ∈ b, isDoneText t.2.2 = false) :
    (runBatch maxFuel r b).out = r.out ∧
    (runBatch maxFuel r b).st.wrap_up = (false, true) ∧
    (runBatch maxFuel r b).st.curr_frontier = r.st.curr_frontier ∧
    (runBatch maxFuel r b).st.fuel = r.st.fuel := by
  have h := foldl_phase2 maxFuel b r hph hnm
  unfold runBatch
  dsimp only
  split_ifs with hp
  · exact h
  · have hw : wrapUpStep (List.foldl (stepRun maxFuel) r b).st =
        ((List.foldl (stepRun maxFuel) r b).st, []) := by
      unfold wrapUpStep
      rw [if_neg]
      rw [h.2.1]
      simp
    simp only [hw]
    exact ⟨by simp [h.1], h.2.1, h.2.2.1, h.2.2.2⟩

/-- Claim C9 amended: once wrap_up has reached phase 2, a further delivered
batch containing no end-of-computation marker writes nothing to the
sink and leaves curr_frontier, fuel and wrap_up unchanged. The buffer
and the pending frontier bookkeeping may still change, and a batch
containing a new end-of-computation marker re-triggers the final
flush, so the hook is not a full no-op as claimed. -/
theorem phase2_no_output_frame (maxFuel : Nat) (s : LogPagState) (b : List LogTuple)
    (hph : s.wrap_up = (false, true)) (hnm : ∀ t ∈ b, isDoneText t.2.2 = false) :
    (runBatch maxFuel { st := s, out := [], panicked := false } b).out = [] ∧
    (runBatch maxFuel { st := s, out := [], panicked := false } b).st.curr_frontier =
      s.curr_frontier ∧
    (runBatch maxFuel { st := s, out := [], panicked := false } b).st.fuel = s.fuel ∧
    (runBatch maxFuel { st := s, out := [], panicked := false } b).st.wrap_up = s.wrap_up := by
  have h := runBatch_phase2 maxFuel { st := s, out := [], panicked := false } b hph hnm
  exact ⟨h.1, h.2.2.1, h.2.2.2, h.2.1.trans hph.symm⟩

/-- Witness for C9 amended at a concrete phase-2 state and batch. -/
theorem phase2_no_output_frame_witness :
    (runBatch 512
      { st := { new_frontier := ⟨1, 4⟩, allow_frontier_update := true,
                curr_frontier := ⟨1, 4⟩, buffer := [],
                wrap_up := (false, true), fuel := 512 },
        out := [], panicked := false }
      [(9, 0, TimelyEvent.Schedule 0)]).out = [] :=
  (phase2_no_output_frame 512
    { new_frontier := ⟨1, 4⟩, allow_frontier_update := true,
      curr_frontier := ⟨1, 4⟩, buffer := [],
      wrap_up := (false, true), fuel := 512 }
    [(9, 0, TimelyEvent.Schedule 0)] (by decide) (by decide)).1

/-- Sequences of non-marker batches in wrap-up phase 2 write nothing. -/
lemma runBatchesFrom_phase2 (maxFuel : Nat) (batches : List (List LogTuple)) :
    ∀ (r : Run), r.st.wrap_up = (false, true) →
      (∀ b ∈ batches, ∀ t ∈ b, isDoneText t.2.2 = false) →
      (runBatchesFrom maxFuel r batches).out = r.out ∧
      (runBatchesFrom maxFuel r batches).st.wrap_up = (false, true) := by
  induction batches with
  | nil => intro r h _; exact ⟨rfl, h⟩
  | cons b bs ih =>
    intro r h hnm
    have h1 := runBatch_phase2 maxFuel r b h (hnm b (by simp))
    have h2 := ih (runBatch maxFuel r b) h1.2.1 (fun u hu => hnm u (by simp [hu]))
    exact ⟨h2.1.trans h1.1, h2.2⟩

/-- Claim C4 amended: after the end-of-computation marker and the wrap-up
flush (wrap_up in phase 2), delivering any additional batches that do
not themselves contain an end-of-computation marker produces no
further Progress or Messages records. A batch containing the marker
again does re-trigger the final flush, so the claim does not hold for
arbitrary batches with Text markers. -/
theorem no_output_after_wrapup (maxFuel : Nat) (s : LogPagState)
    (batches : List (List LogTuple))
    (hph : s.wrap_up = (false, true))
    (hnm : ∀ b ∈ batches, ∀ t ∈ b, isDoneText t.2.2 = false) :
    (runBatchesFrom maxFuel { st := s, out := [], panicked := false } batches).out = [] :=
  (runBatchesFrom_phase2 maxFuel batches { st := s, out := [], panicked := false } hph hnm).1

/-- Witness for C4 amended at a concrete phase-2 state and batches. -/
theorem no_output_after_wrapup_witness :
    (runBatchesFrom 512
      { st := { new_frontier := ⟨1, 4⟩, allow_frontier_update := true,
                curr_frontier := ⟨1, 4⟩, buffer := [],
                wrap_up := (false, true), fuel := 512 },
        out := [], panicked := false }
      [[(9, 0, TimelyEvent.Schedule 0)], [(10, 0, TimelyEvent.Text "epoch")]]).out = [] :=
  no_output_after_wrapup 512
    { new_frontier := ⟨1, 4⟩, allow_frontier_update := true,
      curr_frontier := ⟨1, 4⟩, buffer := [],
      wrap_up := (false, true), fuel := 512 }
    [[(9, 0, TimelyEvent.Schedule 0)], [(10, 0, TimelyEvent.Text "epoch")]]
    (by decide) (by decide)

/- Buffer bound development for the fuel claim. -/

/-- After the match block, outside wrap-up phase 2 the buffer plus fuel
budget is intact or fuel has just run out (and the flush will fire). -/
lemma matchStep_bound (maxFuel : Nat) (s : LogPagState) (t : LogTuple) (s1 : LogPagState)
    (hw : s.wrap_up.2 = false)
    (hb : s.buffer.length + s.fuel ≤ maxFuel)
    (h : matchStep s t = some s1) :
    s1.wrap_up.2 = false ∧ (s1.buffer.length + s1.fuel ≤ maxFuel ∨ s1.fuel = 0) := by
  rcases t with ⟨tt, tw, ev⟩
  cases ev <;>
    simp only [matchStep, spendFuel, captureTime] at h <;>
    (try split_ifs at h) <;>
    (try cases h) <;>
    simp_all <;>
    omega

/-- After the flush check the buffer plus fuel budget is intact. -/
lemma flushStep_bound (maxFuel : Nat) (s : LogPagState)
    (hw : s.wrap_up.2 = false)
    (hb : s.buffer.length + s.fuel ≤ maxFuel ∨ s.fuel = 0) :
    (flushStep maxFuel s).1.buffer.length + (flushStep maxFuel s).1.fuel ≤ maxFuel ∧
    (flushStep maxFuel s).1.wrap_up.2 = false := by
  unfold flushStep
  dsimp only
  split_ifs <;> simp_all

/-- The buffer plus fuel budget is preserved by one processed tuple
outside wrap-up phase 2. -/
lemma processTuple_bound (maxFuel : Nat) (s : LogPagState) (t : LogTuple)
    (s' : LogPagState) (out : List Event)
    (h : processTuple maxFuel s t = some (s', out))
    (hw : s.wrap_up.2 = false)
    (hb : s.buffer.length + s.fuel ≤ maxFuel) :
    s'.buffer.length + s'.fuel ≤ maxFuel ∧ s'.wrap_up.2 = false := by
  unfold processTuple at h
  cases hm : matchStep s t with
  | none => rw [hm] at h; cases h
  | some s1 =>
    rw [hm] at h
    have h1 := matchStep_bound maxFuel s t s1 hw hb hm
    have h2 := flushStep_bound maxFuel s1 h1.1 h1.2
    injection h with h'
    rw [h'] at h2
    exact h2

/-- The buffer plus fuel budget is preserved by an event loop started
outside wrap-up phase 2; phase 2 cannot be entered mid-loop. -/
lemma foldl_bound (maxFuel : Nat) (ts : List LogTuple) :
    ∀ (r : Run), r.st.wrap_up.2 = false →
      r.st.buffer.length + r.st.fuel ≤ maxFuel →
      (ts.foldl (stepRun maxFuel) r).st.buffer.length +
        (ts.foldl (stepRun maxFuel) r).st.fuel ≤ maxFuel ∧
      (ts.foldl (stepRun maxFuel) r).st.wrap_up.2 = false := by
  induction ts with
  | nil => intro r hw hb; exact ⟨hb, hw⟩
  | cons t ts ih =>
    intro r hw hb
    have hstep : (stepRun maxFuel r t).st.buffer.length + (stepRun maxFuel r t).st.fuel ≤ maxFuel ∧
        (stepRun maxFuel r t).st.wrap_up.2 = false := by
      unfold stepRun
      split_ifs with hp
      · exact ⟨hb, hw⟩
      · cases hpt : processTuple maxFuel r.st t with
        | none => simp [hpt]; exact ⟨hb, hw⟩
        | some p =>
          have := processTuple_bound maxFuel r.st t p.1 p.2 (by simp [hpt]) hw hb
          simpa [hpt] using this
    exact ih (stepRun maxFuel r t) hstep.2 hstep.1

/-- The match block either keeps wrap_up or sets it to phase 1 via a
fresh end-of-computation marker. -/
lemma matchStep_wrap (s : LogPagState) (t : LogTuple) (s1 : LogPagState)
    (h : matchStep s t = some s1) :
    s1.wrap_up = s.wrap_up ∨ s1.wrap_up = (true, false) := by
  rcases t with ⟨tt, tw, ev⟩
  cases ev <;>
    simp only [matchStep, spendFuel, captureTime] at h <;>
    (try split_ifs at h) <;>
    (try cases h) <;>
    simp_all

/-- The flush check never changes wrap_up. -/
lemma flushStep_wrap (maxFuel : Nat) (s : LogPagState) :
    (flushStep maxFuel s).1.wrap_up = s.wrap_up := by
  unfold flushStep
  dsimp only
  split_ifs <;> rfl

/-- The match and flush blocks either keep wrap_up or set it to phase 1
via a fresh end-of-computation marker. -/
lemma processTuple_wrap (maxFuel : Nat) (s : LogPagState) (t : LogTuple)
    (s' : LogPagState) (out : List Event)
    (h : processTuple maxFuel s t = some (s', out)) :
    s'.wrap_up = s.wrap_up ∨ s'.wrap_up = (true, false) := by
  unfold processTuple at h
  cases hm : matchStep s t with
  | none => rw [hm] at h; cases h
  | some s1 =>
    rw [hm] at h
    have h1 := matchStep_wrap s t s1 hm
    have h2 := flushStep_wrap maxFuel s1
    injection h with h'
    rw [h'] at h2
    rw [h2]
    exact h1

/-- A frozen run is unchanged by further steps. -/
lemma stepRun_panicked (maxFuel : Nat) (r : Run) (t : LogTuple)
    (hp : r.panicked = true) : stepRun maxFuel r t = r := by
  unfold stepRun
  rw [if_pos hp]

/-- A frozen run is unchanged by further event loops. -/
lemma foldl_panicked (maxFuel : Nat) (ts : List LogTuple) :
    ∀ (r : Run), r.panicked = true → ts.foldl (stepRun maxFuel) r = r := by
  induction ts with
  | nil => intro r _; rfl
  | cons t ts ih =>
    intro r hp
    rw [List.foldl_cons, stepRun_panicked maxFuel r t hp, ih r hp]

/-- Once in wrap-up, an event loop leaves the state in phase 2, back in
phase 1 through a fresh marker, or frozen. -/
lemma foldl_wrap_cases (maxFuel : Nat) (ts : List LogTuple) :
    ∀ (r : Run), r.st.wrap_up.2 = true ∨ r.st.wrap_up = (true, false) ∨ r.panicked = true →
      (ts.foldl (stepRun maxFuel) r).st.wrap_up.2 = true ∨
      (ts.foldl (stepRun maxFuel) r).st.wrap_up = (true, false) ∨
      (ts.foldl (stepRun maxFuel) r).panicked = true := by
  induction ts with
  | nil => intro r h; exact h
  | cons t ts ih =>
    intro r h
    refine ih (stepRun maxFuel r t) ?_
    unfold stepRun
    split_ifs with hp
    · exact h
    · cases hpt : processTuple maxFuel r.st t with
      | none => simp [hpt]
      | some p =>
        have hw := processTuple_wrap maxFuel r.st t p.1 p.2 (by simp [hpt])
        rcases h with h | h | h
        · rcases hw with hw | hw
          · simp [hpt, hw, h]
          · simp [hpt, hw]
        · rcases hw with hw | hw
          · simp [hpt, hw, h]
          · simp [hpt, hw]
        · exact absurd h hp

/-- The wrap-up block when its guard fails. -/
lemma wrapUpStep_skips (s : LogPagState)
    (h : ¬(s.wrap_up.1 = true ∧ s.wrap_up.2 = false)) : wrapUpStep s = (s, []) := by
  unfold wrapUpStep
  rw [if_neg h]

/-- The committed state of the wrap-up block when its guard holds. -/
lemma wrapUpStep_fires (s : LogPagState)
    (h : s.wrap_up.1 = true ∧ s.wrap_up.2 = false) :
    (wrapUpStep s).1 = { s with wrap_up := (false, true) } := by
  unfold wrapUpStep
  rw [if_pos h]

/-- Boundary invariant for the buffer bound: between invocations the
budget is intact before wrap-up, or the session is in phase 2, or it
has panicked. -/
def BoundaryInv (maxFuel : Nat) (r : Run) : Prop :=
  (r.st.buffer.length + r.st.fuel ≤ maxFuel ∧ r.st.wrap_up.2 = false) ∨
  r.st.wrap_up.2 = true ∨ r.panicked = true

/-- The boundary invariant is preserved by one hook invocation. -/
lemma runBatch_boundary (maxFuel : Nat) (r : Run) (b : List LogTuple)
    (h : BoundaryInv maxFuel r) : BoundaryInv maxFuel (runBatch maxFuel r b) := by
  rcases h with ⟨hb, hw⟩ | h | h
  · have h1 := foldl_bound maxFuel b r hw hb
    unfold runBatch
    dsimp only
    split_ifs with hp
    · exact Or.inl h1
    · by_cases hg : (List.foldl (stepRun maxFuel) r b).st.wrap_up.1 = true ∧
          (List.foldl (stepRun maxFuel) r b).st.wrap_up.2 = false
      · right; left
        rw [wrapUpStep_fires _ hg]
      · left
        rw [wrapUpStep_skips _ hg]
        exact h1
  · have h1 := foldl_wrap_cases maxFuel b r (Or.inl h)
    unfold runBatch
    dsimp only
    split_ifs with hp
    · rcases h1 with h1 | h1 | h1
      · exact Or.inr (Or.inl h1)
      · exact Or.inr (Or.inr hp)
      · exact Or.inr (Or.inr h1)
    · rcases h1 with h1 | h1 | h1
      · right; left
        rw [wrapUpStep_skips _ (by rw [h1]; simp)]
        exact h1
      · right; left
        have hg2 : (List.foldl (stepRun maxFuel) r b).st.wrap_up.1 = true ∧
            (List.foldl (stepRun maxFuel) r b).st.wrap_up.2 = false := by
          rw [h1]; exact ⟨rfl, rfl⟩
        rw [wrapUpStep_fires _ hg2]
      · exact absurd h1 hp
  · have h1 := foldl_panicked maxFuel b r h
    unfold runBatch
    dsimp only
    rw [h1, if_pos h]
    exact Or.inr (Or.inr h)

/-- The boundary invariant holds after any delivered batch sequence. -/
lemma runBatches_boundary (maxFuel : Nat) (batches : List (List LogTuple)) :
    ∀ (r : Run), BoundaryInv maxFuel r →
      BoundaryInv maxFuel (runBatchesFrom maxFuel r batches) := by
  induction batches with
  | nil => intro r h; exact h
  | cons b bs ih =>
    intro r h
    exact ih (runBatch maxFuel r b) (runBatch_boundary maxFuel r b h)

/-- Claim C6: before wrap-up phase 2, the buffer never accumulates more than
MAX_FUEL events: in every non-panicked session state whose wrap-up has
not reached phase 2, and at every point of a further event loop, the
buffer holds at most MAX_FUEL events, because every buffered event
consumes one unit of fuel and exhausted fuel forces a flush. -/
theorem fuel_bound_buffer (batches : List (List LogTuple)) (ts : List LogTuple)
    (hp : (runBatches MAX_FUEL batches).panicked = false)
    (hw : (runBatches MAX_FUEL batches).st.wrap_up.2 = false) :
    (ts.foldl (stepRun MAX_FUEL) (runBatches MAX_FUEL batches)).st.buffer.length ≤
      MAX_FUEL := by
  have h0 : BoundaryInv MAX_FUEL (initRun MAX_FUEL) := by
    left
    constructor
    · simp [initRun, initState]
    · rfl
  have h1 : BoundaryInv MAX_FUEL (runBatches MAX_FUEL batches) :=
    runBatches_boundary MAX_FUEL batches (initRun MAX_FUEL) h0
  rcases h1 with ⟨hb, _⟩ | h1 | h1
  · have h2 := foldl_bound MAX_FUEL ts (runBatches MAX_FUEL batches) hw hb
    omega
  · rw [hw] at h1; cases h1
  · rw [hp] at h1; cases h1

/-- Witness for C6 at a concrete session prefix. -/
theorem fuel_bound_buffer_witness :
    (([(3, 0, TimelyEvent.Schedule 0)].foldl (stepRun MAX_FUEL)
      (runBatches MAX_FUEL [[(1, 0, TimelyEvent.Schedule 0)]])).st.buffer.length ≤
      MAX_FUEL) :=
  fuel_bound_buffer [[(1, 0, TimelyEvent.Schedule 0)]] [(3, 0, TimelyEvent.Schedule 0)]
    (by decide) (by decide)

/- Setup-event stamping development. -/

/-- Every setup event of the list is stamped with physical time zero. -/
def SetupZero (l : List LogTuple) : Prop :=
  ∀ t ∈ l, isSetup t.2.2 = true → t.1 = 0

/-- The match block preserves zero-stamped setup events in the buffer:
a setup event is appended stamped with curr_frontier.second, which the
assertions force to be zero. -/
lemma matchStep_setupzero (s : LogPagState) (t : LogTuple) (s1 : LogPagState)
    (h : matchStep s t = some s1) (hb : SetupZero s.buffer) :
    SetupZero s1.buffer := by
  rcases t with ⟨tt, tw, ev⟩
  cases ev with
  | Operates p =>
    simp only [matchStep, spendFuel] at h
    split_ifs at h
    all_goals (try cases h)
    all_goals
      intro u hu hsu
      rw [List.mem_append] at hu
      rcases hu with hu | hu
      · exact hb u hu hsu
      · rw [List.mem_singleton] at hu
        subst hu
        dsimp only at *
        have ha : s.new_frontier = { first := 0, second := 0 } ∧
            s.new_frontier = s.curr_frontier := by assumption
        rw [← ha.2, ha.1]
  | Channels p =>
    simp only [matchStep, spendFuel] at h
    split_ifs at h
    all_goals (try cases h)
    all_goals
      intro u hu hsu
      rw [List.mem_append] at hu
      rcases hu with hu | hu
      · exact hb u hu hsu
      · rw [List.mem_singleton] at hu
        subst hu
        dsimp only at *
        have ha : s.new_frontier = { first := 0, second := 0 } ∧
            s.new_frontier = s.curr_frontier := by assumption
        rw [← ha.2, ha.1]
  | Schedule p =>
    simp only [matchStep, spendFuel, captureTime] at h
    split_ifs at h
    all_goals cases h
    all_goals
      intro u hu hsu
      rw [List.mem_append] at hu
      rcases hu with hu | hu
      · exact hb u hu hsu
      · rw [List.mem_singleton] at hu
        subst hu
        simp [isSetup] at hsu
  | Messages p =>
    simp only [matchStep, spendFuel, captureTime] at h
    split_ifs at h
    all_goals cases h
    all_goals
      intro u hu hsu
      rw [List.mem_append] at hu
      rcases hu with hu | hu
      · exact hb u hu hsu
      · rw [List.mem_singleton] at hu
        subst hu
        simp [isSetup] at hsu
  | Progress p =>
    simp only [matchStep, spendFuel, captureTime] at h
    split_ifs at h
    all_goals cases h
    all_goals
      intro u hu hsu
      rw [List.mem_append] at hu
      rcases hu with hu | hu
      · exact hb u hu hsu
      · rw [List.mem_singleton] at hu
        subst hu
        simp [isSetup] at hsu
  | Text e =>
    simp only [matchStep] at h
    split_ifs at h
    all_goals cases h
    all_goals exact hb
  | Other =>
    simp only [matchStep] at h
    cases h
    exact hb

/-- The flush check only re-emits buffered events, keeping their
stamps; its residual buffer is empty or unchanged. -/
lemma flushStep_setupzero (maxFuel : Nat) (s : LogPagState) (hb : SetupZero s.buffer) :
    SetupZero (flushStep maxFuel s).1.buffer ∧
    (∀ f evs, Event.Messages f evs ∈ (flushStep maxFuel s).2 → SetupZero evs) := by
  unfold flushStep
  dsimp only
  split_ifs
  · refine ⟨fun u hu => (by cases hu), ?_⟩
    intro f evs hmem
    rcases List.mem_cons.mp hmem with hmem | hmem
    · cases hmem
    · rcases List.mem_singleton.mp hmem with hmem
      cases hmem
      exact hb
  · refine ⟨hb, ?_⟩
    intro f evs hmem
    rcases List.mem_singleton.mp hmem with hmem
    cases hmem
  · exact ⟨hb, fun f evs hmem => by cases hmem⟩
  · exact ⟨hb, fun f evs hmem => by cases hmem⟩

/-- One run step preserves zero-stamped setup events everywhere. -/
lemma stepRun_setupzero (maxFuel : Nat) (r : Run) (t : LogTuple)
    (hb : SetupZero r.st.buffer)
    (ho : ∀ f evs, Event.Messages f evs ∈ r.out → SetupZero evs) :
    SetupZero (stepRun maxFuel r t).st.buffer ∧
    (∀ f evs, Event.Messages f evs ∈ (stepRun maxFuel r t).out → SetupZero evs) := by
  unfold stepRun
  split_ifs with hp
  · exact ⟨hb, ho⟩
  · unfold processTuple
    cases hm : matchStep r.st t with
    | none => exact ⟨hb, ho⟩
    | some s1 =>
      have h1 := matchStep_setupzero r.st t s1 hm hb
      have h2 := flushStep_setupzero maxFuel s1 h1
      dsimp only
      refine ⟨h2.1, ?_⟩
      intro f evs hmem
      rw [List.mem_append] at hmem
      rcases hmem with hmem | hmem
      · exact ho f evs hmem
      · exact h2.2 f evs hmem

/-- An event loop preserves zero-stamped setup events everywhere. -/
lemma foldl_setupzero (maxFuel : Nat) (ts : List LogTuple) :
    ∀ (r : Run), SetupZero r.st.buffer →
      (∀ f evs, Event.Messages f evs ∈ r.out → SetupZero evs) →
      SetupZero (ts.foldl (stepRun maxFuel) r).st.buffer ∧
      (∀ f evs, Event.Messages f evs ∈ (ts.foldl (stepRun maxFuel) r).out → SetupZero evs) := by
  induction ts with
  | nil => intro r hb ho; exact ⟨hb, ho⟩
  | cons t ts ih =>
    intro r hb ho
    have h1 := stepRun_setupzero maxFuel r t hb ho
    exact ih (stepRun maxFuel r t) h1.1 h1.2

/-- A whole hook invocation preserves zero-stamped setup events: the
wrap-up block only clones the buffer into its Messages record. -/
lemma runBatch_setupzero (maxFuel : Nat) (r : Run) (b : List LogTuple)
    (hb : SetupZero r.st.buffer)
    (ho : ∀ f evs, Event.Messages f evs ∈ r.out → SetupZero evs) :
    SetupZero (runBatch maxFuel r b).st.buffer ∧
    (∀ f evs, Event.Messages f evs ∈ (runBatch maxFuel r b).out → SetupZero evs) := by
  have h1 := foldl_setupzero maxFuel b r hb ho
  unfold runBatch
  dsimp only
  split_ifs with hp
  · exact h1
  · unfold wrapUpStep
    dsimp only
    split_ifs with hg hl
    · refine ⟨h1.1, ?_⟩
      intro f evs hmem
      rw [List.mem_append] at hmem
      rcases hmem with hmem | hmem
      · exact h1.2 f evs hmem
      · rcases List.mem_cons.mp hmem with hmem | hmem
        · cases hmem
          exact h1.1
        · rcases List.mem_singleton.mp hmem with hmem
          cases hmem
    · refine ⟨h1.1, ?_⟩
      intro f evs hmem
      rw [List.mem_append] at hmem
      rcases hmem with hmem | hmem
      · exact h1.2 f evs hmem
      · rcases List.mem_singleton.mp hmem with hmem
        cases hmem
    · refine ⟨h1.1, ?_⟩
      intro f evs hmem
      rw [List.append_nil] at hmem
      exact h1.2 f evs hmem

/-- All sessions emit only zero-stamped setup events. -/
lemma runBatches_setupzero (maxFuel : Nat) (batches : List (List LogTuple)) :
    ∀ (r : Run), SetupZero r.st.buffer →
      (∀ f evs, Event.Messages f evs ∈ r.out → SetupZero evs) →
      (∀ f evs, Event.Messages f evs ∈ (runBatchesFrom maxFuel r batches).out →
        SetupZero evs) := by
  induction batches with
  | nil => intro r _ ho; exact ho
  | cons b bs ih =>
    intro r hb ho
    have h1 := runBatch_setupzero maxFuel r b hb ho
    exact ih (runBatch maxFuel r b) h1.1 h1.2

/-- Claim C3 amended: every Operates or Channels event the hook emits is
stamped with physical time zero (each Messages record carries its
single frontier tag by construction), but that tag is the frontier
committed at the first flush after the event was buffered, which need
not be Frontier (0, 0). -/
theorem setup_events_time_zero (maxFuel : Nat) (batches : List (List LogTuple))
    (f : Pair) (evs : List LogTuple) (t : LogTuple)
    (hmem : Event.Messages f evs ∈ (runBatches maxFuel batches).out)
    (ht : t ∈ evs) (hs : isSetup t.2.2 = true) : t.1 = 0 := by
  have h := runBatches_setupzero maxFuel batches (initRun maxFuel)
    (fun u hu => by cases hu) (fun g gevs hg => by cases hg) f evs hmem
  exact h t ht hs

/-- Witness for C3 amended: a setup event emitted inside a Messages
record of a concrete session is stamped with time zero. -/
theorem setup_events_time_zero_witness :
    Event.Messages ⟨1, 0⟩ [(0, 0, TimelyEvent.Operates 0)] ∈
      (runBatches 512 [[(5, 0, .Operates 0)], [(10, 0, .Text "e")]]).out ∧
    (0, 0, TimelyEvent.Operates 0).1 = 0 :=
  ⟨by decide,
    setup_events_time_zero 512 [[(5, 0, .Operates 0)], [(10, 0, .Text "e")]]
      ⟨1, 0⟩ [(0, 0, TimelyEvent.Operates 0)] (0, 0, TimelyEvent.Operates 0)
      (by decide) (by decide) (by decide)⟩

/- Replayer factory development. -/

/-- Filtering an initial segment of the range by the modulus predicate
keeps exactly the worker index, once the segment passes it. -/
lemma range_filter_mod (wp wi : Nat) (_hwi : wi < wp) :
    ∀ n, n ≤ wp → (List.range n).filter (fun i => i % wp == wi) =
      if wi < n then [wi] else [] := by
  intro n
  induction n with
  | zero => intro _; simp
  | succ n ih =>
    intro hn
    rw [List.range_succ, List.filter_append, ih (Nat.le_of_succ_le hn)]
    have hnlt : n < wp := hn
    rcases Nat.lt_trichotomy wi n with hlt | heq | hgt
    · rw [if_pos hlt, if_pos (Nat.lt_succ_of_lt hlt)]
      have hne : ¬ ((n % wp == wi) = true) := by
        simp [Nat.mod_eq_of_lt hnlt]
        omega
      simp [List.filter, hne]
    · subst heq
      rw [if_neg (lt_irrefl wi), if_pos (Nat.lt_succ_self wi)]
      have heq2 : (wi % wp == wi) = true := by simp [Nat.mod_eq_of_lt hnlt]
      simp [List.filter, heq2]
    · rw [if_neg (by omega), if_neg (by omega)]
      have hne : ¬ ((n % wp == wi) = true) := by
        simp [Nat.mod_eq_of_lt hnlt]
        omega
      simp [List.filter, hne]

/-- With matching counts a worker owns exactly its own index. -/
lemma assignedSources_self (wi wp : Nat) (hwi : wi < wp) :
    assignedSources wi wp wp = [wi] := by
  unfold assignedSources
  rw [range_filter_mod wp wi hwi wp le_rfl, if_pos hwi]

/-- Membership characterization of the owned source indices. -/
lemma mem_assignedSources (wi wp sp i : Nat) :
    i ∈ assignedSources wi wp sp ↔ i < sp ∧ i % wp = wi := by
  unfold assignedSources
  simp [List.mem_filter, List.mem_range]

/-- Claim C7: with source_peers equal to worker_peers, each worker owns
exactly the source indices congruent to it, here the singleton of its
own index, in increasing order; the assignment is a function of the
three counts alone, and every source index is owned by exactly one
worker; concretely, online worker 1 of 2 with 2 sockets takes exactly
socket slot 1 and never touches slot 0, whatever slot 0 holds. -/
theorem make_replayers_assignment (wi wp sp : Nat) (hsw : sp = wp) (hwi : wi < wp) :
    assignedSources wi wp sp = [wi] ∧
    (∀ i, i < sp → ∃! w, w < wp ∧ i ∈ assignedSources w wp sp) ∧
    (∀ (oa : Option Nat) (b : Nat) (fs : String → Option Nat),
      make_replayers 1 2 2 (some [oa, some b]) fs = .ok [ReplayerType.Tcp b]) := by
  subst hsw
  refine ⟨assignedSources_self wi sp hwi, ?_, ?_⟩
  · intro i hi
    refine ⟨i, ⟨hi, ?_⟩, ?_⟩
    · rw [assignedSources_self i sp hi]
      exact List.mem_singleton_self i
    · intro y hy
      have hmem := (mem_assignedSources y sp sp i).mp hy.2
      rw [Nat.mod_eq_of_lt hi] at hmem
      exact hmem.2.symm
  · intro oa b fs
    rfl

/-- Witness for C7 at the concrete counts of the scenario. -/
theorem make_replayers_assignment_witness :
    assignedSources 1 2 2 = [1] :=
  (make_replayers_assignment 1 2 2 rfl (by decide)).1

/-- Claim C8: make_replayers aborts on the peer-count assertion before
touching any socket or file whenever source_peers differs from
worker_peers, and in offline mode a failed open of the dump file named
from an assigned source index aborts with that file name instead of
returning a partial result. -/
theorem make_replayers_failfast :
    (∀ (wi wp sp : Nat) (sockets : Option (List (Option Nat)))
        (fs : String → Option Nat), sp ≠ wp →
      make_replayers wi wp sp sockets fs = .error .assertFailed) ∧
    (∀ (wi wp : Nat) (fs : String → Option Nat), wi < wp →
      fs (dump_name wi) = none →
      make_replayers wi wp wp none fs = .error (.fileOpen (dump_name wi))) := by
  constructor
  · intro wi wp sp sockets fs hne
    unfold make_replayers
    rw [if_neg hne]
  · intro wi wp fs hwi hfs
    unfold make_replayers
    rw [if_pos rfl]
    dsimp only
    rw [assignedSources_self wi wp hwi]
    unfold openFiles
    rw [hfs]

/-- Witness for C8 at concrete counts and an absent dump file. -/
theorem make_replayers_failfast_witness :
    make_replayers 0 1 2 none (fun _ => none) = .error .assertFailed ∧
    make_replayers 1 2 2 none (fun _ => none) = .error (.fileOpen (dump_name 1)) :=
  ⟨make_replayers_failfast.1 0 1 2 none (fun _ => none) (by decide),
   make_replayers_failfast.2 1 2 (fun _ => none) (by decide) rfl⟩

/- Frontier monotonicity development. -/

/-- Reflexivity of the frontier order. -/
lemma lexLe_refl (p : Pair) : lexLe p p := Or.inr ⟨rfl, le_refl _⟩

/-- Committed frontier of a flush output with a Messages record. -/
lemma commits_pair_msg (a b f : Pair) (evs : List LogTuple) :
    commits [Event.Progress [(a, 1), (b, -1)], Event.Messages f evs] = [a] := rfl

/-- Committed frontier of a flush output without a Messages record. -/
lemma commits_pair (a b : Pair) :
    commits [Event.Progress [(a, 1), (b, -1)]] = [a] := rfl

/-- The wrap-up block commits nothing and keeps both frontiers. -/
lemma wrapUpStep_commits (s : LogPagState) :
    commits (wrapUpStep s).2 = [] ∧
    (wrapUpStep s).1.curr_frontier = s.curr_frontier ∧
    (wrapUpStep s).1.new_frontier = s.new_frontier := by
  unfold wrapUpStep
  dsimp only
  split_ifs <;> exact ⟨rfl, rfl, rfl⟩

/-- Both frontier components stay below the given bound. -/
def secondsLe (s : LogPagState) (m : Nat) : Prop :=
  s.curr_frontier.second ≤ m ∧ s.new_frontier.second ≤ m

/-- The match block keeps the frontier order and the committed
frontier, and stamps the pending frontier at most with the tuple
time. -/
lemma matchStep_frontier (s : LogPagState) (t : LogTuple) (s1 : LogPagState)
    (h : matchStep s t = some s1)
    (hlex : lexLe s.curr_frontier s.new_frontier)
    (hc : s.curr_frontier.second ≤ t.1) (hn : s.new_frontier.second ≤ t.1) :
    lexLe s1.curr_frontier s1.new_frontier ∧
    s1.curr_frontier = s.curr_frontier ∧
    s1.curr_frontier.second ≤ t.1 ∧ s1.new_frontier.second ≤ t.1 := by
  rcases t with ⟨tt, tw, ev⟩
  dsimp only at hc hn
  cases ev <;>
    simp only [matchStep, spendFuel, captureTime] at h <;>
    (try split_ifs at h) <;>
    (try cases h) <;>
    unfold lexLe at hlex ⊢ <;>
    dsimp only <;>
    refine ⟨?_, rfl, ?_, ?_⟩ <;>
    omega

/-- The flush check keeps the frontier order, keeps the pending
frontier, moves the committed frontier at most to the pending one, and
commits exactly the frontier it installs, which dominates the previous
one. -/
lemma flushStep_frontier (maxFuel : Nat) (s : LogPagState)
    (hlex : lexLe s.curr_frontier s.new_frontier) :
    lexLe (flushStep maxFuel s).1.curr_frontier (flushStep maxFuel s).1.new_frontier ∧
    (flushStep maxFuel s).1.new_frontier = s.new_frontier ∧
    ((flushStep maxFuel s).1.curr_frontier = s.curr_frontier ∨
      (flushStep maxFuel s).1.curr_frontier = s.new_frontier) ∧
    ((commits (flushStep maxFuel s).2 = [] ∧
        (flushStep maxFuel s).1.curr_frontier = s.curr_frontier) ∨
     (commits (flushStep maxFuel s).2 = [(flushStep maxFuel s).1.curr_frontier] ∧
        lexLe s.curr_frontier (flushStep maxFuel s).1.curr_frontier)) := by
  unfold flushStep
  dsimp only
  split_ifs
  · exact ⟨lexLe_refl _, rfl, Or.inr rfl, Or.inr ⟨commits_pair_msg _ _ _ _, hlex⟩⟩
  · exact ⟨lexLe_refl _, rfl, Or.inr rfl, Or.inr ⟨commits_pair _ _, hlex⟩⟩
  · exact ⟨hlex, rfl, Or.inl rfl, Or.inl ⟨rfl, rfl⟩⟩
  · exact ⟨hlex, rfl, Or.inl rfl, Or.inl ⟨rfl, rfl⟩⟩

/-- Frontier invariant of a run: the committed frontier is dominated by
the pending one, the committed sequence is a non-decreasing chain, and
its last element is the currently committed frontier. -/
def FrontierInv (r : Run) : Prop :=
  lexLe r.st.curr_frontier r.st.new_frontier ∧
  List.Chain' lexLe (commits r.out) ∧
  (∀ c, (commits r.out).getLast? = some c → c = r.st.curr_frontier)

/-- One run step preserves the frontier invariant when the tuple time
dominates both frontier stamps. -/
lemma stepRun_frontier (maxFuel : Nat) (r : Run) (t : LogTuple)
    (hinv : FrontierInv r) (hsec : secondsLe r.st t.1) :
    FrontierInv (stepRun maxFuel r t) ∧ secondsLe (stepRun maxFuel r t).st t.1 := by
  unfold stepRun
  split_ifs with hp
  · exact ⟨hinv, hsec⟩
  · unfold processTuple
    cases hm : matchStep r.st t with
    | none => exact ⟨hinv, hsec⟩
    | some s1 =>
      dsimp only
      have h1 := matchStep_frontier r.st t s1 hm hinv.1 hsec.1 hsec.2
      have h2 := flushStep_frontier maxFuel s1 h1.1
      have hsec2 : secondsLe (flushStep maxFuel s1).1 t.1 := by
        constructor
        · rcases h2.2.2.1 with hcur | hcur
          · rw [hcur]; exact h1.2.2.1
          · rw [hcur]; exact h1.2.2.2
        · rw [h2.2.1]; exact h1.2.2.2
      have hout : commits (r.out ++ (flushStep maxFuel s1).2) =
          commits r.out ++ commits (flushStep maxFuel s1).2 :=
        List.filterMap_append _ _ _
      refine ⟨⟨h2.1, ?_, ?_⟩, hsec2⟩
      · show List.Chain' lexLe (commits (r.out ++ (flushStep maxFuel s1).2))
        rw [hout]
        rcases h2.2.2.2 with ⟨hc0, _⟩ | ⟨hc1, hcf⟩
        · rw [hc0, List.append_nil]
          exact hinv.2.1
        · rw [hc1, List.chain'_append]
          refine ⟨hinv.2.1, List.chain'_singleton _, ?_⟩
          intro x hx y hy
          have hy2 : y = (flushStep maxFuel s1).1.curr_frontier := by
            rw [List.head?_cons] at hy
            have := Option.mem_def.mp hy
            injection this with h
            exact h.symm
          have hx2 : x = r.st.curr_frontier := hinv.2.2 x (Option.mem_def.mp hx)
          rw [hx2, hy2]
          rw [h1.2.1] at hcf
          exact hcf
      · show ∀ c, (commits (r.out ++ (flushStep maxFuel s1).2)).getLast? = some c →
          c = (flushStep maxFuel s1).1.curr_frontier
        intro c hc
        rw [hout] at hc
        rcases h2.2.2.2 with ⟨hc0, hcf⟩ | ⟨hc1, _⟩
        · rw [hc0, List.append_nil] at hc
          rw [hcf, h1.2.1]
          exact hinv.2.2 c hc
        · rw [hc1, List.getLast?_concat] at hc
          injection hc with hc
          exact hc.symm

/-- An event loop over time-sorted tuples preserves the frontier
invariant; the frontier stamps stay below any bound dominating the
loop times and the starting stamps. -/
lemma foldl_frontier (maxFuel : Nat) (ts : List LogTuple) :
    ∀ (r : Run), ts.Pairwise (fun a b => a.1 ≤ b.1) →
      (∀ t ∈ ts, secondsLe r.st t.1) → FrontierInv r →
      FrontierInv (ts.foldl (stepRun maxFuel) r) ∧
      ∀ m, (∀ t ∈ ts, t.1 ≤ m) → secondsLe r.st m →
        secondsLe (ts.foldl (stepRun maxFuel) r).st m := by
  induction ts with
  | nil => intro r _ _ hinv; exact ⟨hinv, fun m _ hs => hs⟩
  | cons t ts ih =>
    intro r hpw hbound hinv
    have hpw2 := List.pairwise_cons.mp hpw
    have h1 := stepRun_frontier maxFuel r t hinv (hbound t (List.mem_cons_self t ts))
    have hbound2 : ∀ u ∈ ts, secondsLe (stepRun maxFuel r t).st u.1 := by
      intro u hu
      have ht : t.1 ≤ u.1 := hpw2.1 u hu
      exact ⟨le_trans h1.2.1 ht, le_trans h1.2.2 ht⟩
    have h2 := ih (stepRun maxFuel r t) hpw2.2 hbound2 h1.1
    refine ⟨h2.1, ?_⟩
    intro m hm hs
    refine h2.2 m (fun u hu => hm u (List.mem_cons_of_mem t hu)) ?_
    have htm : t.1 ≤ m := hm t (List.mem_cons_self t ts)
    exact ⟨le_trans h1.2.1 htm, le_trans h1.2.2 htm⟩

/-- A whole hook invocation over time-sorted tuples preserves the
frontier invariant: the wrap-up block commits nothing. -/
lemma runBatch_frontier (maxFuel : Nat) (r : Run) (b : List LogTuple)
    (hpw : b.Pairwise (fun a c => a.1 ≤ c.1))
    (hbound : ∀ t ∈ b, secondsLe r.st t.1) (hinv : FrontierInv r) :
    FrontierInv (runBatch maxFuel r b) ∧
    ∀ m, (∀ t ∈ b, t.1 ≤ m) → secondsLe r.st m →
      secondsLe (runBatch maxFuel r b).st m := by
  have h1 := foldl_frontier maxFuel b r hpw hbound hinv
  unfold runBatch
  dsimp only
  split_ifs with hp
  · exact h1
  · have hw := wrapUpStep_commits (List.foldl (stepRun maxFuel) r b).st
    have hca : commits ((List.foldl (stepRun maxFuel) r b).out ++
        (wrapUpStep (List.foldl (stepRun maxFuel) r b).st).2) =
        commits (List.foldl (stepRun maxFuel) r b).out ++
          commits (wrapUpStep (List.foldl (stepRun maxFuel) r b).st).2 :=
      List.filterMap_append _ _ _
    constructor
    · refine ⟨?_, ?_, ?_⟩
      · rw [hw.2.1, hw.2.2]
        exact h1.1.1
      · show List.Chain' lexLe (commits ((List.foldl (stepRun maxFuel) r b).out ++
          (wrapUpStep (List.foldl (stepRun maxFuel) r b).st).2))
        rw [hca, hw.1, List.append_nil]
        exact h1.1.2.1
      · intro c hc
        rw [hca, hw.1, List.append_nil] at hc
        rw [hw.2.1]
        exact h1.1.2.2 c hc
    · intro m hm hs
      have h2 := h1.2 m hm hs
      exact ⟨by rw [hw.2.1]; exact h2.1, by rw [hw.2.2]; exact h2.2⟩

/-- Any session over time-sorted batches preserves the frontier
invariant. -/
lemma runBatchesFrom_frontier (maxFuel : Nat) (batches : List (List LogTuple)) :
    ∀ (r : Run), (batches.flatten).Pairwise (fun a b => a.1 ≤ b.1) →
      (∀ t ∈ batches.flatten, secondsLe r.st t.1) → FrontierInv r →
      FrontierInv (runBatchesFrom maxFuel r batches) := by
  induction batches with
  | nil => intro r _ _ hinv; exact hinv
  | cons b bs ih =>
    intro r hpw hbound hinv
    rw [List.flatten_cons] at hpw hbound
    rw [List.pairwise_append] at hpw
    have hb1 : ∀ t ∈ b, secondsLe r.st t.1 :=
      fun t ht => hbound t (List.mem_append_left _ ht)
    have h1 := runBatch_frontier maxFuel r b hpw.1 hb1 hinv
    refine ih (runBatch maxFuel r b) hpw.2.1 ?_ h1.1
    intro u hu
    refine h1.2 u.1 ?_ (hbound u (List.mem_append_right _ hu))
    intro t ht
    exact hpw.2.2 t ht u hu

/-- Claim C5 amended: when the delivered events carry non-decreasing
physical times in delivery order (the documented upstream contract),
the sequence of committed frontiers is non-decreasing under the
lexicographic order on epoch and physical time. Strict increase across
flushes does not hold: a fuel-exhaustion flush can recommit an equal
frontier, and without the time contract the sequence can even
decrease. -/
theorem commits_monotone_of_sorted_times (maxFuel : Nat)
    (batches : List (List LogTuple))
    (hsort : (batches.flatten).Pairwise (fun a b => a.1 ≤ b.1)) :
    List.Chain' lexLe (commits (runBatches maxFuel batches).out) := by
  have hinv0 : FrontierInv (initRun maxFuel) := by
    refine ⟨lexLe_refl _, List.chain'_nil, ?_⟩
    intro c hc
    cases hc
  have h : FrontierInv (runBatches maxFuel batches) :=
    runBatchesFrom_frontier maxFuel batches (initRun maxFuel) hsort
      (fun t _ => ⟨Nat.zero_le _, Nat.zero_le _⟩) hinv0
  exact h.2.1

/-- Witness for C5 amended at a concrete time-sorted session. -/
theorem commits_monotone_witness :
    List.Chain' lexLe (commits (runBatches 512
      [[(1, 0, TimelyEvent.Schedule 0)], [(2, 0, TimelyEvent.Text "e")]]).out) :=
  commits_monotone_of_sorted_times 512
    [[(1, 0, TimelyEvent.Schedule 0)], [(2, 0, TimelyEvent.Text "e")]] (by decide)

/- Counterexample sessions for the monotonicity claim. -/

/-- A repeated Operates tuple. -/
def opT : LogTuple := (0, 0, .Operates 0)

/-- A repeated Schedule tuple at time fifty. -/
def schT : LogTuple := (50, 0, .Schedule 0)

/-- A single batch of 1024 Operates events: fuel forces two flushes
that both commit Frontier (0, 0). -/
def bigA : List LogTuple := List.replicate 1024 opT

/-- The 512 Schedule events at time fifty following an epoch committed
at time one hundred: the fuel flush commits a smaller frontier. -/
def bigB : List LogTuple := List.replicate 512 schT

/-- Session state while consuming only Operates events. -/
def RopsSt (k f : Nat) : LogPagState :=
  { new_frontier := ⟨0, 0⟩, allow_frontier_update := true,
    curr_frontier := ⟨0, 0⟩, buffer := List.replicate k opT,
    wrap_up := (false, false), fuel := f }

set_option maxRecDepth 4000 in
/-- One Operates step away from exhaustion just buffers and burns
fuel. -/
lemma stepRun_ops (k f : Nat) (out : List Event) (hf : 2 ≤ f) :
    stepRun 512 { st := RopsSt k f, out := out, panicked := false } opT =
      { st := RopsSt (k + 1) (f - 1), out := out, panicked := false } := by
  have hfz : ¬(f - 1 = 0) := by omega
  simp [stepRun, processTuple, matchStep, spendFuel, flushStep, RopsSt, opT,
    hfz, List.replicate_succ']

/-- A block of Operates steps away from exhaustion just buffers and
burns fuel. -/
lemma foldl_ops (n : Nat) :
    ∀ (k f : Nat) (out : List Event), n + 1 ≤ f →
      (List.replicate n opT).foldl (stepRun 512)
        { st := RopsSt k f, out := out, panicked := false } =
      { st := RopsSt (k + n) (f - n), out := out, panicked := false } := by
  induction n with
  | zero => intro k f out _; rfl
  | succ n ih =>
    intro k f out hf
    rw [List.replicate_succ, List.foldl_cons, stepRun_ops k f out (by omega),
      ih (k + 1) (f - 1) out (by omega)]
    have e1 : k + 1 + n = k + (n + 1) := by omega
    have e2 : f - 1 - n = f - (n + 1) := by omega
    rw [e1, e2]

set_option maxRecDepth 4000 in
/-- An Operates event at exhausted fuel flushes, recommitting
Frontier (0, 0). -/
lemma stepRun_ops_flush (k : Nat) (out : List Event) :
    stepRun 512 { st := RopsSt k 1, out := out, panicked := false } opT =
      { st := RopsSt 0 512,
        out := out ++ [Event.Progress [(⟨0, 0⟩, 1), (⟨0, 0⟩, -1)],
          Event.Messages ⟨0, 0⟩ (List.replicate k opT ++ [opT])],
        panicked := false } := by
  simp [stepRun, processTuple, matchStep, spendFuel, flushStep, RopsSt, opT]

set_option maxRecDepth 4000 in
/-- One exhaustion round: 512 Operates from a fresh fuel tank buffer
511 events and flush on the 512th, recommitting Frontier (0, 0). -/
lemma runA_round (out : List Event) :
    (List.replicate 511 opT ++ [opT]).foldl (stepRun 512)
      { st := RopsSt 0 512, out := out, panicked := false } =
    { st := RopsSt 0 512,
      out := out ++ [Event.Progress [(⟨0, 0⟩, 1), (⟨0, 0⟩, -1)],
        Event.Messages ⟨0, 0⟩ (List.replicate 511 opT ++ [opT])],
      panicked := false } := by
  have e1 : (List.replicate 511 opT ++ [opT]).foldl (stepRun 512)
      { st := RopsSt 0 512, out := out, panicked := false } =
      ([opT] : List LogTuple).foldl (stepRun 512)
        ((List.replicate 511 opT).foldl (stepRun 512)
          { st := RopsSt 0 512, out := out, panicked := false }) :=
    List.foldl_append _ _ _ _
  have e2 : (List.replicate 511 opT).foldl (stepRun 512)
      { st := RopsSt 0 512, out := out, panicked := false } =
      { st := RopsSt 511 1, out := out, panicked := false } :=
    foldl_ops 511 0 512 out (by omega)
  have e3 : ([opT] : List LogTuple).foldl (stepRun 512)
      { st := RopsSt 511 1, out := out, panicked := false } =
      stepRun 512 { st := RopsSt 511 1, out := out, panicked := false } opT := rfl
  exact e1.trans
    ((congrArg (fun r => ([opT] : List LogTuple).foldl (stepRun 512) r) e2).trans
      (e3.trans (stepRun_ops_flush 511 out)))

set_option maxRecDepth 4000 in
/-- The full 1024-Operates session: two flushes, both committing
Frontier (0, 0), and no wrap-up. -/
lemma runA_out : runBatches 512 [bigA] =
    { st := RopsSt 0 512,
      out := [Event.Progress [(⟨0, 0⟩, 1), (⟨0, 0⟩, -1)],
              Event.Messages ⟨0, 0⟩ (List.replicate 511 opT ++ [opT]),
              Event.Progress [(⟨0, 0⟩, 1), (⟨0, 0⟩, -1)],
              Event.Messages ⟨0, 0⟩ (List.replicate 511 opT ++ [opT])],
      panicked := false } := by
  have hsplit : bigA =
      (List.replicate 511 opT ++ [opT]) ++ (List.replicate 511 opT ++ [opT]) := by
    unfold bigA
    rw [show (1024 : Nat) = 512 + 512 by norm_num, List.replicate_add,
      List.replicate_succ' 511 opT]
  have ha : bigA.foldl (stepRun 512) (initRun 512) =
      (List.replicate 511 opT ++ [opT]).foldl (stepRun 512)
        ((List.replicate 511 opT ++ [opT]).foldl (stepRun 512) (initRun 512)) :=
    (congrArg (fun l => l.foldl (stepRun 512) (initRun 512)) hsplit).trans
      (List.foldl_append _ _ _ _)
  have hb : (List.replicate 511 opT ++ [opT]).foldl (stepRun 512) (initRun 512) =
      { st := RopsSt 0 512,
        out := [Event.Progress [(⟨0, 0⟩, 1), (⟨0, 0⟩, -1)],
                Event.Messages ⟨0, 0⟩ (List.replicate 511 opT ++ [opT])],
        panicked := false } := runA_round []
  have hc : (List.replicate 511 opT ++ [opT]).foldl (stepRun 512)
      { st := RopsSt 0 512,
        out := [Event.Progress [(⟨0, 0⟩, 1), (⟨0, 0⟩, -1)],
                Event.Messages ⟨0, 0⟩ (List.replicate 511 opT ++ [opT])],
        panicked := false } =
      { st := RopsSt 0 512,
        out := [Event.Progress [(⟨0, 0⟩, 1), (⟨0, 0⟩, -1)],
                Event.Messages ⟨0, 0⟩ (List.replicate 511 opT ++ [opT]),
                Event.Progress [(⟨0, 0⟩, 1), (⟨0, 0⟩, -1)],
                Event.Messages ⟨0, 0⟩ (List.replicate 511 opT ++ [opT])],
        panicked := false } :=
    runA_round [Event.Progress [(⟨0, 0⟩, 1), (⟨0, 0⟩, -1)],
                Event.Messages ⟨0, 0⟩ (List.replicate 511 opT ++ [opT])]
  have hfold : bigA.foldl (stepRun 512) (initRun 512) =
      { st := RopsSt 0 512,
        out := [Event.Progress [(⟨0, 0⟩, 1), (⟨0, 0⟩, -1)],
                Event.Messages ⟨0, 0⟩ (List.replicate 511 opT ++ [opT]),
                Event.Progress [(⟨0, 0⟩, 1), (⟨0, 0⟩, -1)],
                Event.Messages ⟨0, 0⟩ (List.replicate 511 opT ++ [opT])],
        panicked := false } :=
    ha.trans
      ((congrArg
        (fun r => (List.replicate 511 opT ++ [opT]).foldl (stepRun 512) r) hb).trans hc)
  unfold runBatches runBatchesFrom
  rw [List.foldl_cons, List.foldl_nil]
  unfold runBatch
  dsimp only
  rw [hfold]
  rw [if_neg (by decide : ¬(false = true))]
  rw [wrapUpStep_skips _ (by decide)]
  rw [List.append_nil]

/-- State after an epoch was committed at time one hundred, while
consuming Schedule events at time fifty. -/
def RschSt (k f : Nat) : LogPagState :=
  { new_frontier := ⟨1, 50⟩, allow_frontier_update := false,
    curr_frontier := ⟨1, 100⟩, buffer := List.replicate k schT,
    wrap_up := (false, false), fuel := f }

/-- State reached by one Schedule at time one hundred and an epoch
marker: the epoch flush commits Frontier (1, 100). -/
def S2st : LogPagState :=
  { new_frontier := ⟨1, 100⟩, allow_frontier_update := true,
    curr_frontier := ⟨1, 100⟩, buffer := [],
    wrap_up := (false, false), fuel := 512 }

/-- Records emitted by the epoch flush at Frontier (1, 100). -/
def out0 : List Event :=
  [Event.Progress [(⟨1, 100⟩, 1), (⟨0, 0⟩, -1)],
   Event.Messages ⟨1, 100⟩ [(100, 0, .Schedule 0)]]

set_option maxRecDepth 4000 in
/-- The first Schedule at time fifty captures the smaller physical
time into the pending frontier. -/
lemma stepRun_sch_first (out : List Event) :
    stepRun 512 { st := S2st, out := out, panicked := false } schT =
      { st := RschSt 1 511, out := out, panicked := false } := by
  simp [stepRun, processTuple, matchStep, spendFuel, captureTime, flushStep,
    S2st, RschSt, schT, List.replicate_one]

set_option maxRecDepth 4000 in
/-- Further Schedules away from exhaustion just buffer and burn
fuel. -/
lemma stepRun_sch (k f : Nat) (out : List Event) (hf : 2 ≤ f) :
    stepRun 512 { st := RschSt k f, out := out, panicked := false } schT =
      { st := RschSt (k + 1) (f - 1), out := out, panicked := false } := by
  have hfz : ¬(f - 1 = 0) := by omega
  simp [stepRun, processTuple, matchStep, spendFuel, captureTime, flushStep,
    RschSt, schT, hfz, List.replicate_succ']

/-- A block of Schedule steps away from exhaustion just buffers and
burns fuel. -/
lemma foldl_sch (n : Nat) :
    ∀ (k f : Nat) (out : List Event), n + 1 ≤ f →
      (List.replicate n schT).foldl (stepRun 512)
        { st := RschSt k f, out := out, panicked := false } =
      { st := RschSt (k + n) (f - n), out := out, panicked := false } := by
  induction n with
  | zero => intro k f out _; rfl
  | succ n ih =>
    intro k f out hf
    rw [List.replicate_succ, List.foldl_cons, stepRun_sch k f out (by omega),
      ih (k + 1) (f - 1) out (by omega)]
    have e1 : k + 1 + n = k + (n + 1) := by omega
    have e2 : f - 1 - n = f - (n + 1) := by omega
    rw [e1, e2]

set_option maxRecDepth 4000 in
/-- A Schedule at exhausted fuel flushes, committing Frontier (1, 50),
strictly below the previously committed Frontier (1, 100). -/
lemma stepRun_sch_flush (k : Nat) (out : List Event) :
    stepRun 512 { st := RschSt k 1, out := out, panicked := false } schT =
      { st := { new_frontier := ⟨1, 50⟩, allow_frontier_update := true,
                curr_frontier := ⟨1, 50⟩, buffer := [],
                wrap_up := (false, false), fuel := 512 },
        out := out ++ [Event.Progress [(⟨1, 50⟩, 1), (⟨1, 100⟩, -1)],
          Event.Messages ⟨1, 50⟩ (List.replicate k schT ++ [schT])],
        panicked := false } := by
  simp [stepRun, processTuple, matchStep, spendFuel, captureTime, flushStep,
    RschSt, schT]

set_option maxRecDepth 4000 in
/-- The session committing Frontier (1, 100) and then, by fuel
exhaustion on events at time fifty, Frontier (1, 50). -/
lemma runB_out : runBatches 512 [[(100, 0, .Schedule 0)], [(101, 0, .Text "e")], bigB] =
    { st := { new_frontier := ⟨1, 50⟩, allow_frontier_update := true,
              curr_frontier := ⟨1, 50⟩, buffer := [],
              wrap_up := (false, false), fuel := 512 },
      out := out0 ++ [Event.Progress [(⟨1, 50⟩, 1), (⟨1, 100⟩, -1)],
        Event.Messages ⟨1, 50⟩ (List.replicate 511 schT ++ [schT])],
      panicked := false } := by
  have hbsplit : bigB = [schT] ++ (List.replicate 510 schT ++ [schT]) := by
    unfold bigB
    rw [show (512 : Nat) = 1 + 511 by norm_num, List.replicate_add,
      List.replicate_one, List.replicate_succ' 510 schT]
  have hpre : runBatch 512 (runBatch 512 (initRun 512) [(100, 0, .Schedule 0)])
      [(101, 0, .Text "e")] = { st := S2st, out := out0, panicked := false } := by decide
  have ea : bigB.foldl (stepRun 512) { st := S2st, out := out0, panicked := false } =
      (List.replicate 510 schT ++ [schT]).foldl (stepRun 512)
        (([schT] : List LogTuple).foldl (stepRun 512)
          { st := S2st, out := out0, panicked := false }) :=
    (congrArg (fun l => l.foldl (stepRun 512)
      { st := S2st, out := out0, panicked := false }) hbsplit).trans
      (List.foldl_append _ _ _ _)
  have eb : ([schT] : List LogTuple).foldl (stepRun 512)
      { st := S2st, out := out0, panicked := false } =
      { st := RschSt 1 511, out := out0, panicked := false } :=
    stepRun_sch_first out0
  have ec : (List.replicate 510 schT ++ [schT]).foldl (stepRun 512)
      { st := RschSt 1 511, out := out0, panicked := false } =
      ([schT] : List LogTuple).foldl (stepRun 512)
        ((List.replicate 510 schT).foldl (stepRun 512)
          { st := RschSt 1 511, out := out0, panicked := false }) :=
    List.foldl_append _ _ _ _
  have ed : (List.replicate 510 schT).foldl (stepRun 512)
      { st := RschSt 1 511, out := out0, panicked := false } =
      { st := RschSt 511 1, out := out0, panicked := false } :=
    foldl_sch 510 1 511 out0 (by omega)
  have ee : ([schT] : List LogTuple).foldl (stepRun 512)
      { st := RschSt 511 1, out := out0, panicked := false } =
      { st := { new_frontier := ⟨1, 50⟩, allow_frontier_update := true,
                curr_frontier := ⟨1, 50⟩, buffer := [],
                wrap_up := (false, false), fuel := 512 },
        out := out0 ++ [Event.Progress [(⟨1, 50⟩, 1), (⟨1, 100⟩, -1)],
          Event.Messages ⟨1, 50⟩ (List.replicate 511 schT ++ [schT])],
        panicked := false } :=
    stepRun_sch_flush 511 out0
  have hfold : bigB.foldl (stepRun 512) { st := S2st, out := out0, panicked := false } =
      { st := { new_frontier := ⟨1, 50⟩, allow_frontier_update := true,
                curr_frontier := ⟨1, 50⟩, buffer := [],
                wrap_up := (false, false), fuel := 512 },
        out := out0 ++ [Event.Progress [(⟨1, 50⟩, 1), (⟨1, 100⟩, -1)],
          Event.Messages ⟨1, 50⟩ (List.replicate 511 schT ++ [schT])],
        panicked := false } :=
    ea.trans
      ((congrArg
        (fun r => (List.replicate 510 schT ++ [schT]).foldl (stepRun 512) r) eb).trans
        (ec.trans
          ((congrArg
            (fun r => ([schT] : List LogTuple).foldl (stepRun 512) r) ed).trans ee)))
  unfold runBatches runBatchesFrom
  rw [List.foldl_cons, List.foldl_cons, List.foldl_cons, List.foldl_nil]
  rw [hpre]
  unfold runBatch
  dsimp only
  rw [hfold]
  rw [if_neg (by decide : ¬(false = true))]
  rw [wrapUpStep_skips _ (by decide)]
  rw [List.append_nil]

set_option maxRecDepth 4000 in
set_option linter.constructorNameAsVariable false in
/-- Claim C5 counterexample: the committed-frontier sequence of log_pag with
its MAX_FUEL of 512 is not strictly increasing across flushes: a batch
of 1024 Operates events commits Frontier (0, 0) twice, refuting the
claim even though the event times are non-decreasing. Moreover,
without the upstream time contract even weak monotonicity fails: after
an epoch committed at time one hundred, fuel exhaustion on Schedule
events at time fifty commits the smaller Frontier (1, 50). -/
theorem committed_monotone_counterexample :
    ¬ committedMonotone MAX_FUEL [bigA] ∧
    commits (runBatches MAX_FUEL [bigA]).out = [⟨0, 0⟩, ⟨0, 0⟩] ∧
    commits (runBatches MAX_FUEL
      [[(100, 0, .Schedule 0)], [(101, 0, .Text "e")], bigB]).out =
      [⟨1, 100⟩, ⟨1, 50⟩] ∧
    ¬ List.Chain' lexLe (commits (runBatches MAX_FUEL
      [[(100, 0, .Schedule 0)], [(101, 0, .Text "e")], bigB]).out) := by
  have hA : commits (runBatches MAX_FUEL [bigA]).out = [⟨0, 0⟩, ⟨0, 0⟩] := by
    rw [show MAX_FUEL = 512 from rfl, runA_out]
    rfl
  have hB : commits (runBatches MAX_FUEL
      [[(100, 0, .Schedule 0)], [(101, 0, .Text "e")], bigB]).out =
      [⟨1, 100⟩, ⟨1, 50⟩] := by
    rw [show MAX_FUEL = 512 from rfl, runB_out]
    rfl
  refine ⟨?_, hA, hB, ?_⟩
  · intro hmono
    obtain ⟨-, h2m⟩ := hmono
    rw [hA] at h2m
    exact absurd (List.chain'_cons.mp h2m).1 (by decide)
  · intro hch
    rw [hB] at hch
    exact absurd (List.chain'_cons.mp hch).1 (by decide)

end Snailtrail
